import Mathlib

/-
Shallow embedding of `inireader.cpp`: a command-line tool that reads one
named value from a section of an INI file.  Strings are modelled as
`List Char`; the file is a list of raw lines (no line terminators); the
stdout diagnostic inside `iequals` is modelled as an explicit Bool flag;
`main`'s exit code and messages are modelled by the `MainResult` record.
-/

namespace IniReader

/-- The whitespace characters stripped by `trim` (`find_first_not_of(" \t")`). -/
def isWs (c : Char) : Bool := c = ' ' || c = '\t'

/-- ASCII `std::tolower` (C locale): maps `A`..`Z` to `a`..`z`, otherwise identity. -/
def tolower (c : Char) : Char :=
  if 65 ≤ c.toNat ∧ c.toNat ≤ 90 then Char.ofNat (c.toNat + 32) else c

/-- `iequals` from the source, including its side effect: the second component
records whether the length-mismatch branch ran (which prints a diagnostic line
to standard output in the C++ code). -/
def iequalsD (a b : List Char) : Bool × Bool :=
  if a.length ≠ b.length then (false, true)
  else ((a.zip b).all fun p => tolower p.1 == tolower p.2, false)

/-- The boolean result of `iequals`. -/
def iequals (a b : List Char) : Bool := (iequalsD a b).1

/-- `trim`: remove leading and trailing spaces/tabs.  Faithful to the source:
when every character is whitespace (`find_first_not_of` returns `npos`) the
string is returned unchanged. -/
def trim (s : List Char) : List Char :=
  if s.all isWs then s
  else ((s.dropWhile isWs).reverse.dropWhile isWs).reverse

/-- `unquote`: if the string is non-empty and its first and last characters are
both `"`, return `substr(1, length - 2)` (which drops the first and last
characters; on the one-character string `"` the `size_t` underflow makes the
count huge and `substr` clamps it, yielding the empty string); else unchanged. -/
def unquote (s : List Char) : List Char :=
  if s ≠ [] ∧ s.head? = some '"' ∧ s.getLast? = some '"'
  then (s.drop 1).dropLast
  else s

/-- The `Entry` class: a name/value pair.  A default-constructed or cleared
entry has both fields empty. -/
structure Entry where
  n : List Char
  v : List Char
deriving DecidableEq

/-- `Entry::valid()`: both the name and the value must be non-empty. -/
def Entry.valid (e : Entry) : Bool := !e.n.isEmpty && !e.v.isEmpty

/-- `parse_section_entry`: succeeds iff the raw line contains `=` and its
trimmed form is non-empty.  The name is the trimmed run of characters before
the first `=` of the trimmed line (the C++ `while (s[i] != '=')` scan); the
value is the remainder after `=`, trimmed then unquoted.  `none` models the
`false` return, after which the cleared `Entry` is invalid. -/
def parse_section_entry (line : List Char) : Option Entry :=
  if '=' ∈ line then
    if trim line ≠ [] then
      some ⟨trim ((trim line).takeWhile fun c => c != '='),
            unquote (trim (((trim line).dropWhile fun c => c != '=').drop 1))⟩
    else none
  else none

/-- `is_section` with the `iequals` diagnostic flag threaded through: checks
that the line and section name are non-empty, the line has length at least
`section_name.length + 2`, starts with `[`, has `]` at index
`section_name.length + 1`, and that `substr(1, section_name.length)`
case-insensitively equals the section name. -/
def is_sectionD (str sec : List Char) : Bool × Bool :=
  if str ≠ [] ∧ sec ≠ [] ∧ sec.length + 2 ≤ str.length ∧
     str.head? = some '[' ∧ str.get? (sec.length + 1) = some ']'
  then iequalsD ((str.drop 1).take sec.length) sec
  else (false, false)

/-- The boolean result of `is_section`. -/
def is_section (str sec : List Char) : Bool := (is_sectionD str sec).1

/-- The loop of `main` with `get_line`'s filtering folded in.  For each raw
line: an empty line is skipped (`get_line` only yields the empty string at end
of file, where `main` loops once more and stops); the line is trimmed; a line
trimming to empty is skipped; a line starting with `;` is a comment and
skipped; then `main`'s body runs on the trimmed line: a `[`-initial line while
in the target section ends the lookup (not found); in the section the line is
parsed and a valid entry whose name equals the requested name yields its value;
otherwise a matching section header enters the section; anything else is
skipped.  `none` models falling off the end with nothing printed. -/
def lookupLoop : List (List Char) → List Char → List Char → Bool → Option (List Char)
  | [], _, _, _ => none
  | l :: ls, sec, key, inSec =>
    if l = [] then lookupLoop ls sec key inSec
    else if trim l = [] then lookupLoop ls sec key inSec
    else if (trim l).head? = some ';' then lookupLoop ls sec key inSec
    else if (trim l).head? = some '[' ∧ inSec = true then none
    else if inSec = true then
      match parse_section_entry (trim l) with
      | some e =>
        if Entry.valid e = true ∧ e.n = key then some e.v
        else lookupLoop ls sec key inSec
      | none => lookupLoop ls sec key inSec
    else if is_section (trim l) sec then lookupLoop ls sec key true
    else lookupLoop ls sec key inSec

/-- The whole-file lookup as `main` performs it, starting outside any section. -/
def lookup (lines : List (List Char)) (sec key : List Char) : Option (List Char) :=
  lookupLoop lines sec key false

/-- The two distinct error messages `main` can print to standard error. -/
inductive CliMsg where
  | usage
  | openFail
deriving DecidableEq

/-- Observable result of `main`: the process exit code, the value printed to
standard output (if any), and the error message printed to standard error
(if any). -/
structure MainResult where
  code : Nat
  out : Option (List Char)
  err : Option CliMsg
deriving DecidableEq

/-- `main`: with exactly 4 argv entries and a readable file, run the lookup and
print the value if found (exit 0 either way, and nothing is reported when the
key is not found); an unreadable file gives the open-failure message and exit
code 3; any other argument count gives the usage message and exit code 1. -/
def main_run (argc : Nat) (file : Option (List (List Char))) (sec key : List Char) :
    MainResult :=
  if argc = 4 then
    match file with
    | some lines =>
      match lookupLoop lines sec key false with
      | some v => ⟨0, some v, none⟩
      | none => ⟨0, none, none⟩
    | none => ⟨3, none, some CliMsg.openFail⟩
  else ⟨1, none, some CliMsg.usage⟩

/-! ### Helper lemmas about `trim` -/

lemma trim_eq_nil_iff (s : List Char) : trim s = [] ↔ s = [] := by
  unfold trim
  by_cases hall : s.all isWs = true
  · simp [hall]
  · rw [if_neg hall]
    have hd : s.dropWhile isWs ≠ [] := by
      rw [Ne, List.dropWhile_eq_nil_iff]
      intro hx
      exact hall (List.all_eq_true.mpr hx)
    have hs : s ≠ [] := by
      intro h
      exact hall (by simp [h])
    have hlen : 0 < (s.dropWhile isWs).length := List.length_pos.mpr hd
    have hhead := List.dropWhile_get_zero_not isWs s hlen
    constructor
    · intro hnil
      exfalso
      rw [List.reverse_eq_nil_iff, List.dropWhile_eq_nil_iff] at hnil
      exact hhead (hnil _ (by
        rw [List.mem_reverse]
        exact List.get_mem _ _ hlen))
    · intro h
      exact absurd h hs

lemma mem_of_mem_trim {c : Char} {s : List Char} (h : c ∈ trim s) : c ∈ s := by
  unfold trim at h
  split at h
  · exact h
  · rw [List.mem_reverse] at h
    have h1 : c ∈ (s.dropWhile isWs).reverse := (List.dropWhile_suffix isWs).mem h
    rw [List.mem_reverse] at h1
    exact (List.dropWhile_suffix isWs).mem h1

/-! ### Helper lemmas about `iequals` and `is_section` -/

lemma zip_all_tolower_iff :
    ∀ (a b : List Char), a.length = b.length →
      (((a.zip b).all fun p => tolower p.1 == tolower p.2) = true ↔
        a.map tolower = b.map tolower)
  | [], [], _ => by simp
  | [], _ :: _, h => by simp at h
  | _ :: _, [], h => by simp at h
  | x :: a, y :: b, h => by
    have ih := zip_all_tolower_iff a b (by simpa using h)
    simp only [List.zip_cons_cons, List.all_cons, List.map_cons, Bool.and_eq_true,
      beq_iff_eq, List.cons.injEq]
    rw [ih]

lemma iequalsD_snd_eq_false {a b : List Char} (h : a.length = b.length) :
    (iequalsD a b).2 = false := by
  simp [iequalsD, h]

lemma iequalsD_congr (a b₁ b₂ : List Char) (h : b₁.map tolower = b₂.map tolower) :
    iequalsD a b₁ = iequalsD a b₂ := by
  have hlen : b₁.length = b₂.length := by simpa using congrArg List.length h
  by_cases hab : a.length = b₁.length
  · rw [iequalsD, if_neg (by omega), iequalsD, if_neg (by omega)]
    refine Prod.ext ?_ rfl
    show ((a.zip b₁).all fun p => tolower p.1 == tolower p.2) =
      ((a.zip b₂).all fun p => tolower p.1 == tolower p.2)
    rw [Bool.eq_iff_iff, zip_all_tolower_iff a b₁ hab,
      zip_all_tolower_iff a b₂ (by omega), h]
  · rw [iequalsD, if_pos (by omega), iequalsD, if_pos (by omega)]

lemma is_sectionD_congr (t sec₁ sec₂ : List Char) (h : sec₁.map tolower = sec₂.map tolower) :
    is_sectionD t sec₁ = is_sectionD t sec₂ := by
  have hlen : sec₁.length = sec₂.length := by simpa using congrArg List.length h
  have hnil : sec₁ = [] ↔ sec₂ = [] := by
    rw [← List.length_eq_zero, ← List.length_eq_zero, hlen]
  simp only [is_sectionD]
  refine if_congr ?_ ?_ rfl
  · rw [hlen]
    exact and_congr Iff.rfl (and_congr (not_congr hnil) Iff.rfl)
  · rw [hlen]
    exact iequalsD_congr _ _ _ h

lemma is_section_congr (t sec₁ sec₂ : List Char) (h : sec₁.map tolower = sec₂.map tolower) :
    is_section t sec₁ = is_section t sec₂ := by
  unfold is_section
  rw [is_sectionD_congr t sec₁ sec₂ h]

/-! ### Helper lemmas about `lookupLoop` -/

lemma lookupLoop_congr (sec₁ sec₂ key : List Char) (h : sec₁.map tolower = sec₂.map tolower) :
    ∀ (lines : List (List Char)) (b : Bool),
      lookupLoop lines sec₁ key b = lookupLoop lines sec₂ key b := by
  intro lines
  induction lines with
  | nil => intro b; rfl
  | cons l ls ih =>
    intro b
    simp only [lookupLoop, is_section_congr (trim l) sec₁ sec₂ h, ih]

/-- While in the target section, a non-empty, non-comment line that does not
start with `[` is parsed as an entry and either yields its value (on a valid
exact-name match) or is skipped with the state unchanged. -/
lemma lookupLoop_entry_step (l : List Char) (ls : List (List Char)) (sec key : List Char)
    (h0 : l ≠ []) (h1 : (trim l).head? ≠ some ';') (h2 : (trim l).head? ≠ some '[') :
    lookupLoop (l :: ls) sec key true =
      match parse_section_entry (trim l) with
      | some e =>
        if Entry.valid e = true ∧ e.n = key then some e.v
        else lookupLoop ls sec key true
      | none => lookupLoop ls sec key true := by
  have ht : trim l ≠ [] := fun hh => h0 ((trim_eq_nil_iff l).mp hh)
  simp only [lookupLoop, if_neg h0, if_neg ht, if_neg h1]
  rw [if_neg (by rintro ⟨ha, -⟩; exact h2 ha), if_pos trivial]

lemma parse_trim_ne_nil {l : List Char} {e : Entry}
    (hp : parse_section_entry (trim l) = some e) : l ≠ [] := by
  intro h
  subst h
  simp [parse_section_entry, trim] at hp

/-- While in the target section, a line that parses to a valid entry whose name
equals the requested name yields that entry's value. -/
lemma entry_found_step (l : List Char) (ls : List (List Char)) (sec key : List Char)
    (e : Entry) (h1 : (trim l).head? ≠ some ';') (h2 : (trim l).head? ≠ some '[')
    (hp : parse_section_entry (trim l) = some e)
    (hv : Entry.valid e = true) (hn : e.n = key) :
    lookupLoop (l :: ls) sec key true = some e.v := by
  rw [lookupLoop_entry_step l ls sec key (parse_trim_ne_nil hp) h1 h2, hp]
  exact if_pos ⟨hv, hn⟩

/-! ### Helper lemmas for the separator scan and for empty-key lines -/

lemma takeWhile_stops_at_sep :
    ∀ (s : List Char), '=' ∈ s →
      ((s.takeWhile fun c => c != '=').length < s.length ∧
        s.get? (s.takeWhile fun c => c != '=').length = some '=')
  | c :: cs, h => by
    by_cases hc : c = '='
    · subst hc
      rw [List.takeWhile_cons]
      simp
    · have h' : '=' ∈ cs := by
        rcases List.mem_cons.mp h with h | h
        · exact absurd h.symm hc
        · exact h
      have ih := takeWhile_stops_at_sep cs h'
      rw [List.takeWhile_cons, if_pos (by simp [hc])]
      constructor
      · simpa using Nat.succ_lt_succ ih.1
      · simpa using ih.2

lemma dropWhile_append_of_all {p : Char → Bool} :
    ∀ (l₁ l₂ : List Char), (∀ x ∈ l₁, p x = true) →
      (l₁ ++ l₂).dropWhile p = l₂.dropWhile p
  | [], _, _ => rfl
  | a :: l₁, l₂, h => by
    have ha : p a = true := h a (List.mem_cons_self _ _)
    rw [List.cons_append, List.dropWhile_cons, if_pos ha]
    exact dropWhile_append_of_all l₁ l₂ fun x hx => h x (List.mem_cons_of_mem _ hx)

lemma dropWhile_append_singleton {p : Char → Bool} (a : Char) (ha : p a = false) :
    ∀ (l : List Char), (l ++ [a]).dropWhile p = l.dropWhile p ++ [a]
  | [] => by
    rw [List.nil_append, List.dropWhile_cons]
    simp [ha]
  | b :: l => by
    by_cases hb : p b = true
    · rw [List.cons_append, List.dropWhile_cons, if_pos hb, List.dropWhile_cons, if_pos hb]
      exact dropWhile_append_singleton a ha l
    · rw [List.cons_append, List.dropWhile_cons, if_neg hb, List.dropWhile_cons, if_neg hb,
        List.cons_append]

/-- Trimming a line made of whitespace, then `=`, then anything yields a line
that starts with the `=`. -/
lemma trim_ws_sep (pre v : List Char) (hpre : ∀ x ∈ pre, isWs x = true) :
    trim (pre ++ '=' :: v) = '=' :: (v.reverse.dropWhile isWs).reverse := by
  have hne : isWs '=' = false := rfl
  have hall : ¬ ((pre ++ '=' :: v).all isWs = true) := by
    rw [List.all_eq_true]
    intro hx
    have := hx '=' (by simp)
    simp [isWs] at this
  rw [trim, if_neg hall, dropWhile_append_of_all pre ('=' :: v) hpre,
    List.dropWhile_cons, if_neg (by simp [hne]), List.reverse_cons,
    dropWhile_append_singleton '=' hne, List.reverse_append]
  rfl

/-! ### Claims -/

/-- C1 (counterexample): key matching is case-sensitive, so varying the
requested key only in ASCII case changes the result: with the document
`[CLIENT]` / `Phone=5`, key `Phone` is Found with `5` while key `phone` is
not found. -/
theorem C1_counterexample :
    lookup ["[CLIENT]".data, "Phone=5".data] "CLIENT".data "Phone".data = some ['5'] ∧
    lookup ["[CLIENT]".data, "Phone=5".data] "CLIENT".data "phone".data = none := by
  constructor <;> decide

/-- C1 (amended): lookup yields identical results when the requested SECTION
name is varied only in ASCII letter case; key matching is exact, and inside the
target section a line parsing to a valid entry whose name equals the requested
key exactly is reported Found with that entry's value. -/
theorem C1_section_case_insensitive :
    (∀ (lines : List (List Char)) (sec₁ sec₂ key : List Char),
        sec₁.map tolower = sec₂.map tolower →
        lookup lines sec₁ key = lookup lines sec₂ key) ∧
    (∀ (l : List Char) (ls : List (List Char)) (sec key : List Char) (e : Entry),
        (trim l).head? ≠ some ';' → (trim l).head? ≠ some '[' →
        parse_section_entry (trim l) = some e → Entry.valid e = true → e.n = key →
        lookupLoop (l :: ls) sec key true = some e.v) := by
  constructor
  · intro lines sec₁ sec₂ key h
    exact lookupLoop_congr sec₁ sec₂ key h lines false
  · intro l ls sec key e h1 h2 hp hv hn
    exact entry_found_step l ls sec key e h1 h2 hp hv hn

/-- C1 witness: the section argument may change case without changing the
result. -/
theorem C1_witness :
    lookup ["[CLIENT]".data, "x=1".data] "client".data "x".data =
      lookup ["[CLIENT]".data, "x=1".data] "CLIENT".data "x".data :=
  C1_section_case_insensitive.1 ["[CLIENT]".data, "x=1".data]
    "client".data "CLIENT".data "x".data (by decide)

/-- C2 (counterexample): with the document `[S]` / `k=`, the entry `k=` has an
empty value, `Entry::valid` rejects it, and the lookup returns NotFound rather
than Found with the empty value. -/
theorem C2_counterexample :
    lookup ["[S]".data, "k=".data] "S".data "k".data = none := by decide

/-- C2 (amended): an entry line whose trimmed key matches but whose value is
empty is NOT a valid Entry (`Entry::valid` also requires a non-empty value), so
while in the target section such a line is skipped and the lookup continues. -/
theorem C2_empty_value_skipped (l : List Char) (ls : List (List Char))
    (sec key : List Char) (e : Entry)
    (h1 : (trim l).head? ≠ some ';') (h2 : (trim l).head? ≠ some '[')
    (hp : parse_section_entry (trim l) = some e) (hv : e.v = []) :
    lookupLoop (l :: ls) sec key true = lookupLoop ls sec key true := by
  rw [lookupLoop_entry_step l ls sec key (parse_trim_ne_nil hp) h1 h2, hp]
  show (if Entry.valid e = true ∧ e.n = key then some e.v
    else lookupLoop ls sec key true) = lookupLoop ls sec key true
  rw [if_neg]
  rintro ⟨hval, -⟩
  rw [Entry.valid, hv] at hval
  simp at hval

/-- C2 witness: the line `k=` inside the target section is skipped. -/
theorem C2_witness :
    lookupLoop ["k=".data] "S".data "k".data true =
      lookupLoop [] "S".data "k".data true :=
  C2_empty_value_skipped "k=".data [] "S".data "k".data ⟨['k'], []⟩
    (by decide) (by decide) (by decide) rfl

/-- C3 (counterexample): with a readable file whose lookup concludes NotFound,
`main` prints no message at all and exits with status 0, not with a distinct
non-zero status. -/
theorem C3_counterexample :
    main_run 4 (some ["[S]".data, "a=1".data]) "S".data "k".data =
      ⟨0, none, none⟩ := by decide

/-- C3 (amended): when the lookup concludes NotFound the process prints nothing
and exits with status 0 (the success status); bad usage exits 1 with the usage
message and an unreadable file exits 3 with the open-failure message — so
source-error and bad-usage are distinguishable from each other, but NotFound is
indistinguishable from success by exit status and carries no message. -/
theorem C3_exit_statuses :
    (∀ (lines : List (List Char)) (sec key : List Char),
        lookupLoop lines sec key false = none →
        main_run 4 (some lines) sec key = ⟨0, none, none⟩) ∧
    (∀ (argc : Nat) (file : Option (List (List Char))) (sec key : List Char),
        argc ≠ 4 → main_run argc file sec key = ⟨1, none, some CliMsg.usage⟩) ∧
    (∀ sec key : List Char,
        main_run 4 none sec key = ⟨3, none, some CliMsg.openFail⟩) := by
  refine ⟨?_, ?_, ?_⟩
  · intro lines sec key h
    simp [main_run, h]
  · intro argc file sec key h
    simp [main_run, h]
  · intro sec key
    simp [main_run]

/-- C3 witness: a lookup over the empty file is NotFound and exits 0 silently. -/
theorem C3_witness :
    main_run 4 (some []) "S".data "k".data = ⟨0, none, none⟩ :=
  C3_exit_statuses.1 [] "S".data "k".data rfl

/-- C4 (counterexample): `[ CLIENT ]`, whose bracketed text carries inner
padding, is NOT recognized as a header of section CLIENT, while
`[CLIENT]junk`, which does not end with `]`, IS recognized. -/
theorem C4_counterexample :
    is_section (trim "[ CLIENT ]".data) "CLIENT".data = false ∧
    is_section "[CLIENT]junk".data "CLIENT".data = true := by
  constructor <;> decide

/-- C4 (amended): a line is recognized as a header of the requested section
exactly when the section name is non-empty and the line decomposes as `[`, then
a block of exactly the section name's length that case-insensitively equals the
name, then `]`, then arbitrary trailing text: the bracketed text is never
trimmed, and nothing past position `name.length + 1` is examined. -/
theorem C4_header_characterization (str sec : List Char) :
    is_section str sec = true ↔
      sec ≠ [] ∧ ∃ mid rest, str = '[' :: (mid ++ ']' :: rest) ∧
        mid.length = sec.length ∧ mid.map tolower = sec.map tolower := by
  unfold is_section is_sectionD
  constructor
  · intro h
    split at h
    case isTrue hc =>
      obtain ⟨hne, hsec, hlen, hhead, hget⟩ := hc
      obtain ⟨tail, rfl⟩ : ∃ tail, str = '[' :: tail := by
        cases str with
        | nil => cases hhead
        | cons a t =>
          refine ⟨t, ?_⟩
          simp only [List.head?_cons, Option.some.injEq] at hhead
          rw [hhead]
      have hget' : tail.get? sec.length = some ']' := by simpa using hget
      have hlt : sec.length < tail.length := (List.get?_eq_some.mp hget').1
      have hmidlen : (tail.take sec.length).length = sec.length := by
        rw [List.length_take]
        omega
      refine ⟨hsec, tail.take sec.length, tail.drop (sec.length + 1), ?_, hmidlen, ?_⟩
      · congr 1
        conv_lhs => rw [← List.take_append_drop sec.length tail]
        congr 1
        rw [List.drop_eq_getElem_cons hlt]
        congr 1
        have hv := (List.get?_eq_some.mp hget').2
        simpa using hv
      · have hsub : (('[' :: tail).drop 1).take sec.length = tail.take sec.length := rfl
        rw [hsub, iequalsD, if_neg (by simp [hmidlen])] at h
        exact (zip_all_tolower_iff _ _ hmidlen).mp (by simpa using h)
    case isFalse => simp at h
  · rintro ⟨hsec, mid, rest, rfl, hmidlen, hmap⟩
    have hlen : sec.length + 2 ≤ ('[' :: (mid ++ ']' :: rest)).length := by
      simp only [List.length_cons, List.length_append]
      omega
    have hget : ('[' :: (mid ++ ']' :: rest)).get? (sec.length + 1) = some ']' := by
      show (mid ++ ']' :: rest).get? sec.length = some ']'
      rw [List.get?_append_right (le_of_eq hmidlen)]
      simp [hmidlen]
    rw [if_pos ⟨by simp, hsec, hlen, rfl, hget⟩]
    show (iequalsD ((mid ++ ']' :: rest).take sec.length) sec).1 = true
    have htake : (mid ++ ']' :: rest).take sec.length = mid := by
      rw [← hmidlen]
      exact List.take_left _ _
    rw [htake, iequalsD, if_neg (by simp [hmidlen])]
    simpa using (zip_all_tolower_iff _ _ hmidlen).mpr hmap

/-- C4 witness: `[a]` is a header of section `A`. -/
theorem C4_witness : is_section "[a]".data "A".data = true :=
  (C4_header_characterization "[a]".data "A".data).mpr
    ⟨by decide, ['a'], [], by decide, by decide, by decide⟩

/-- C5 (counterexample): `unquote` on the single-character string `"` does not
return it unchanged — with no minimum-length check it returns the empty
string. -/
theorem C5_counterexample :
    unquote ['"'] = [] ∧ unquote ['"'] ≠ ['"'] := by
  constructor <;> decide

/-- C5 (amended): unquote strips one character from each end iff the string is
non-empty and its first and last characters are both `"` — with no minimum
length requirement, so the single character `"` (being its own first and last
character) becomes the empty string; any other string, including an
unterminated `"unterminated`, is returned unchanged. -/
theorem C5_unquote_spec :
    (∀ mid : List Char, unquote ('"' :: (mid ++ ['"'])) = mid) ∧
    unquote ['"'] = [] ∧
    (∀ s : List Char, s.head? ≠ some '"' ∨ s.getLast? ≠ some '"' → unquote s = s) := by
  refine ⟨?_, by decide, ?_⟩
  · intro mid
    have hlast : ('"' :: (mid ++ ['"'])).getLast? = some '"' := by
      rw [show '"' :: (mid ++ ['"']) = ('"' :: mid) ++ ['"'] from rfl]
      exact List.getLast?_concat _
    rw [unquote, if_pos ⟨by simp, by simp, hlast⟩]
    show (mid ++ ['"']).dropLast = mid
    exact List.dropLast_concat
  · intro s h
    rw [unquote, if_neg]
    rintro ⟨h1, h2, h3⟩
    rcases h with h | h
    · exact h h2
    · exact h h3

/-- C5 witness: an unquoted string is returned unchanged. -/
theorem C5_witness : unquote "abc".data = "abc".data :=
  C5_unquote_spec.2.2 "abc".data (Or.inl (by decide))

/-- C6 (counterexample): with `[S]` / `[bad` / `k=1`, the line `[bad` (starts
with `[` but does not end with `]`) terminates the target section, so the
following `k=1` is never reached and the lookup is NotFound — rather than the
line being parsed as a candidate entry and the lookup returning Found `1`. -/
theorem C6_counterexample :
    lookup ["[S]".data, "[bad".data, "k=1".data] "S".data "k".data = none := by decide

/-- C6 (amended): while in the target section, ANY line whose trimmed form
starts with `[` — whether or not it ends with `]` — ends the lookup with
outcome NotFound; a non-comment line not starting with `[` keeps the lookup in
the target section unless a valid entry with exactly the requested key is
declared a match, in which case its value is returned. -/
theorem C6_in_section_step :
    (∀ (l : List Char) (ls : List (List Char)) (sec key : List Char),
        (trim l).head? = some '[' → lookupLoop (l :: ls) sec key true = none) ∧
    (∀ (l : List Char) (ls : List (List Char)) (sec key : List Char),
        l ≠ [] → (trim l).head? ≠ some ';' → (trim l).head? ≠ some '[' →
        (∀ e, parse_section_entry (trim l) = some e →
          ¬(Entry.valid e = true ∧ e.n = key)) →
        lookupLoop (l :: ls) sec key true = lookupLoop ls sec key true) := by
  constructor
  · intro l ls sec key h
    have ht : trim l ≠ [] := by
      intro hh
      rw [hh] at h
      cases h
    have h0 : l ≠ [] := fun hh => ht ((trim_eq_nil_iff l).mpr hh)
    have h1 : (trim l).head? ≠ some ';' := by simp [h]
    simp only [lookupLoop, if_neg h0, if_neg ht, if_neg h1]
    rw [if_pos]
    exact ⟨h, by trivial⟩
  · intro l ls sec key h0 h1 h2 hmatch
    rw [lookupLoop_entry_step l ls sec key h0 h1 h2]
    cases hp : parse_section_entry (trim l) with
    | none => rfl
    | some e =>
      simp only []
      rw [if_neg (hmatch e hp)]

/-- C6 witness: a lone `[x` line while in the target section ends the lookup. -/
theorem C6_witness : lookupLoop ["[x".data] "S".data "k".data true = none :=
  C6_in_section_step.1 "[x".data [] "S".data "k".data (by decide)

/-- C7 (counterexample): a line whose first character is `#` is NOT skipped as
a comment: in document `[S]` / `#k=v`, requesting key `#k` in section `S`
returns Found `v`, so the `#` line was parsed as a key/value entry. -/
theorem C7_counterexample :
    lookup ["[S]".data, "#k=v".data] "S".data "#k".data = some "v".data := by decide

/-- C7 (amended): only `;` is recognized as a comment marker — a line whose
first non-whitespace character is `;` is skipped in every state, while a line
whose first non-whitespace character is `#` is treated as an ordinary candidate
line: in the target section it is parsed and, when it forms a valid entry whose
name equals the requested key, its value is reported Found. -/
theorem C7_comment_markers :
    (∀ (l : List Char) (ls : List (List Char)) (sec key : List Char) (b : Bool),
        l ≠ [] → (trim l).head? = some ';' →
        lookupLoop (l :: ls) sec key b = lookupLoop ls sec key b) ∧
    (∀ (l : List Char) (ls : List (List Char)) (sec key : List Char) (e : Entry),
        (trim l).head? = some '#' → parse_section_entry (trim l) = some e →
        Entry.valid e = true → e.n = key →
        lookupLoop (l :: ls) sec key true = some e.v) := by
  constructor
  · intro l ls sec key b h0 h
    have ht : trim l ≠ [] := by
      intro hh
      rw [hh] at h
      cases h
    simp only [lookupLoop, if_neg h0, if_neg ht, if_pos h]
  · intro l ls sec key e h hp hv hn
    exact entry_found_step l ls sec key e (by simp [h]) (by simp [h]) hp hv hn

/-- C7 witness: the `#`-initial line `#k=v` matches key `#k` as an entry. -/
theorem C7_witness :
    lookupLoop ["#k=v".data] "S".data "#k".data true = some "v".data :=
  C7_comment_markers.2 "#k=v".data [] "S".data "#k".data ⟨"#k".data, "v".data⟩
    (by decide) (by decide) (by decide) (by decide)

/-- C8: a candidate line containing no `=` is not an entry — the parser returns
none, the driver skips the line and the lookup continues in the section — and
the character-by-character scan for the separator only runs once the separator
is known to be present: it stops strictly inside the string, at the first `=`. -/
theorem C8_no_separator_safe :
    (∀ line : List Char, '=' ∉ line → parse_section_entry line = none) ∧
    (∀ (l : List Char) (ls : List (List Char)) (sec key : List Char),
        l ≠ [] → (trim l).head? ≠ some ';' → (trim l).head? ≠ some '[' → '=' ∉ l →
        lookupLoop (l :: ls) sec key true = lookupLoop ls sec key true) ∧
    (∀ line : List Char, '=' ∈ trim line →
        ((trim line).takeWhile fun c => c != '=').length < (trim line).length ∧
        (trim line).get? ((trim line).takeWhile fun c => c != '=').length = some '=') := by
  refine ⟨?_, ?_, ?_⟩
  · intro line h
    unfold parse_section_entry
    rw [if_neg h]
  · intro l ls sec key h0 h1 h2 hm
    rw [lookupLoop_entry_step l ls sec key h0 h1 h2]
    have hpn : parse_section_entry (trim l) = none := by
      unfold parse_section_entry
      rw [if_neg (fun hx => hm (mem_of_mem_trim hx))]
    rw [hpn]
  · intro line h
    exact takeWhile_stops_at_sep (trim line) h

/-- C8 witness: a separator-free line is not an entry. -/
theorem C8_witness : parse_section_entry "abc".data = none :=
  C8_no_separator_safe.1 "abc".data (by decide)

/-- C9 (counterexample): on the line `=value` the parser does NOT fail: it
returns successfully, producing an Entry with empty name and value `value`. -/
theorem C9_counterexample :
    parse_section_entry "=value".data = some ⟨[], "value".data⟩ ∧
    parse_section_entry "=value".data ≠ none := by
  constructor <;> decide

/-- C9 (amended): on a candidate line whose text before the first `=` is all
whitespace (so the key trims to empty), the parser SUCCEEDS, returning an
Entry with an empty name; that Entry fails `Entry::valid`, and it is that later
validity test — not the parser — that keeps such a line from matching. -/
theorem C9_empty_key_parses (pre v : List Char) (hpre : pre.all isWs = true) :
    ∃ e, parse_section_entry (pre ++ '=' :: v) = some e ∧ e.n = [] ∧
      Entry.valid e = false := by
  have hw := trim_ws_sep pre v (List.all_eq_true.mp hpre)
  refine ⟨⟨[], unquote (trim ((v.reverse.dropWhile isWs).reverse))⟩, ?_, rfl, rfl⟩
  unfold parse_section_entry
  rw [if_pos (by simp), hw, if_pos (by simp)]
  rfl

/-- C9 witness: the line `=value` parses to an invalid empty-name entry. -/
theorem C9_witness :
    ∃ e, parse_section_entry ([] ++ '=' :: "value".data) = some e ∧ e.n = [] ∧
      Entry.valid e = false :=
  C9_empty_key_parses [] "value".data rfl

/-- C10: `is_section` always hands `iequals` two strings of equal length — the
extracted substring has exactly the section name's length — so the
length-mismatch branch of `iequals`, the one that would write a diagnostic line
to standard output, never runs during section matching. -/
theorem C10_iequals_lengths_match (str sec : List Char) :
    (is_sectionD str sec).2 = false := by
  unfold is_sectionD
  split
  case isTrue hc =>
    obtain ⟨-, -, hlen, -, -⟩ := hc
    refine iequalsD_snd_eq_false ?_
    rw [List.length_take, List.length_drop]
    omega
  case isFalse => rfl

end IniReader
